import Mathlib

/-!
Verification of the core algorithms of the Art Centre passport-photo
application.

Each definition below is a shallow embedding of the corresponding
TypeScript function of the repository (`App.tsx` with its embedded
`Cropper` component, `components/CurveAdjustment.tsx`,
`services/geminiService.ts`).  JS numbers are modelled as exact
rationals (`ℚ`) where the code does real arithmetic, and as integers
for the already-rounded curve coordinates.  Network calls, canvas
rasterisation and React state are modelled as explicit oracles,
event lists and state records.
-/

namespace ArtCentre

/-- `Math.round` in JS rounds half toward positive infinity:
`Math.round(x) = ⌊x + 0.5⌋`. -/
def jsRound (q : ℚ) : Int := ⌊q + 1/2⌋

/-- A tone-curve control point (`Point` in `types.ts`): an
`(input, output)` intensity pair.  All points produced by the curve
editor are integer-valued (`Math.round` results, possibly clamped). -/
structure Point where
  x : Int
  y : Int
deriving DecidableEq, Repr

/-- `CurveSettings` from `types.ts`: one control-point list per
channel (`all`, `red`, `green`, `blue`). -/
structure CurveSettings where
  all : List Point
  red : List Point
  green : List Point
  blue : List Point
deriving DecidableEq, Repr

/-- The four channel identifiers of `CurveSettings`. -/
inductive Channel
  | all
  | red
  | green
  | blue
deriving DecidableEq, Repr

/-- Read one channel of a `CurveSettings` (i.e. `settings[activeChannel]`). -/
def getChannel (s : CurveSettings) : Channel → List Point
  | .all => s.all
  | .red => s.red
  | .green => s.green
  | .blue => s.blue

/-- Functional update of one channel
(i.e. `{ ...settings, [activeChannel]: newPoints }`). -/
def setChannel (s : CurveSettings) : Channel → List Point → CurveSettings
  | .all, ps => { s with all := ps }
  | .red, ps => { s with red := ps }
  | .green, ps => { s with green := ps }
  | .blue, ps => { s with blue := ps }

/-- The identity channel curve `[{x:0,y:0},{x:255,y:255}]` used by
`DEFAULT_CURVES` in `App.tsx`. -/
def identityCurve : List Point := [⟨0, 0⟩, ⟨255, 255⟩]

/-- `DEFAULT_CURVES` from `App.tsx`. -/
def DEFAULT_CURVES : CurveSettings :=
  { all := identityCurve, red := identityCurve,
    green := identityCurve, blue := identityCurve }

/-- `AppState` enum from `types.ts` (the four screens used by `App.tsx`). -/
inductive AppState
  | UPLOAD
  | CROP
  | PROCESS
  | PREVIEW
deriving DecidableEq, Repr

/-- `BackgroundColor` enum from `types.ts`; `ORIGINAL` is the
"Don't Change" option. -/
inductive BackgroundColor
  | WHITE
  | BLUE
  | ORIGINAL
deriving DecidableEq, Repr

/-- `ClothingOption` enum from `types.ts`; `NONE` keeps the original
clothes. -/
inductive ClothingOption
  | NONE
  | MALE_BLAZER
  | FEMALE_BLAZER
  | MALE_SHIRT
  | FEMALE_SHIRT
deriving DecidableEq, Repr

/-! ## Viewport geometry (`Cropper` in `App.tsx`) -/

/-- `ASPECT_RATIO = 35 / 45` from the `Cropper` component (renamed:
the original all-caps identifier is kept in the comment). -/
def cropAspect : ℚ := 35 / 45

/-- `CROP_BOX_HEIGHT = 420` (viewport pixels). -/
def CROP_BOX_HEIGHT : ℚ := 420

/-- `CROP_BOX_WIDTH = CROP_BOX_HEIGHT * ASPECT_RATIO`. -/
def CROP_BOX_WIDTH : ℚ := CROP_BOX_HEIGHT * cropAspect

/-- A source-pixel crop rectangle, as passed to `getCroppedImg`. -/
structure CropRegion where
  x : ℚ
  y : ℚ
  width : ℚ
  height : ℚ
deriving DecidableEq, Repr

/-- The geometry computation of `handleCrop` in the `Cropper`
component: converts the viewport state (zoom, pan) plus container and
natural image dimensions into the source-pixel `CropRegion` handed to
`getCroppedImg`.  (`rotation` is forwarded unchanged to
`getCroppedImg` and does not enter this arithmetic.) -/
def handleCrop (naturalWidth naturalHeight zoom panX panY containerW containerH : ℚ) :
    CropRegion :=
  let renderedWidth := naturalWidth * zoom
  let renderedHeight := naturalHeight * zoom
  let cropBoxLeft := (containerW - CROP_BOX_WIDTH) / 2
  let cropBoxTop := (containerH - CROP_BOX_HEIGHT) / 2
  let imgLeftInContainer := (containerW - renderedWidth) / 2 + panX
  let imgTopInContainer := (containerH - renderedHeight) / 2 + panY
  let offsetX := cropBoxLeft - imgLeftInContainer
  let offsetY := cropBoxTop - imgTopInContainer
  let scale := naturalWidth / renderedWidth
  { x := offsetX * scale
    y := offsetY * scale
    width := CROP_BOX_WIDTH * scale
    height := CROP_BOX_HEIGHT * scale }

/-- `setupAutoCrop` from the `Cropper` component: the initial zoom and
pan computed when an image loads.  Returns `(zoom, panX, panY)`. -/
def setupAutoCrop (naturalWidth naturalHeight : ℚ) : ℚ × ℚ × ℚ :=
  let widthZoom := (CROP_BOX_WIDTH / naturalWidth) * (28/10)
  let heightZoom := (CROP_BOX_HEIGHT / naturalHeight) * (15/10)
  let finalZoom := min (max widthZoom heightZoom) 4
  let renderedHeight := naturalHeight * finalZoom
  let initialY := -(renderedHeight * (18/100))
  (finalZoom, 0, initialY)

/-- `handleManualRotationChange` needs JS `parseFloat`.  This models
the decimal fragment of `parseFloat`: skip leading spaces, optional
sign, longest digit prefix, optional fractional digits after `.`;
`NaN` (no digits at all) is `none`.  Like `parseFloat`, trailing
garbage after a numeric prefix is ignored. -/
def digitsVal (cs : List Char) : ℚ :=
  cs.foldl (fun acc c => acc * 10 + ((c.toNat : ℚ) - 48)) 0

/-- Fractional value of the digit list after the decimal dot. -/
def fracVal (cs : List Char) : ℚ :=
  digitsVal cs / (10 ^ cs.length)

/-- See `digitsVal`; the model of JS `parseFloat` on decimal input. -/
def jsParseFloat (s : String) : Option ℚ :=
  let cs := s.data.dropWhile (· = ' ')
  let signed : Bool × List Char :=
    match cs with
    | '-' :: rest => (true, rest)
    | '+' :: rest => (false, rest)
    | _ => (false, cs)
  let intPart := signed.2.takeWhile Char.isDigit
  let rest := signed.2.dropWhile Char.isDigit
  let fracPart :=
    match rest with
    | '.' :: r => r.takeWhile Char.isDigit
    | _ => []
  if intPart.isEmpty ∧ fracPart.isEmpty then none
  else
    let v := digitsVal intPart + fracVal fracPart
    some (if signed.1 then -v else v)

/-- `handleManualRotationChange` from the `Cropper` component: `val =
parseFloat(value)`; if `val` is a number, rotation becomes `val`;
otherwise rotation is reset to `0` only when the raw field value is
`""` or `"-"`, and is left unchanged for every other non-parsing
string. -/
def handleManualRotationChange (value : String) (rotation : ℚ) : ℚ :=
  match jsParseFloat value with
  | some val => val
  | none => if value = "" ∨ value = "-" then 0 else rotation

/-! ## Curve-edit history (`CurveAdjustment.tsx`) -/

/-- The history state of `CurveAdjustment`: the snapshot stack and the
current index (a JS number; `-1` before the initial push). -/
structure HistState where
  history : List CurveSettings
  historyIndex : Int
deriving DecidableEq, Repr

/-- JS array indexing `history[i]` (`undefined` out of range). -/
def histEntry (h : List CurveSettings) (i : Int) : Option CurveSettings :=
  if i < 0 then none else h.get? i.toNat

/-- `addToHistory` from `CurveAdjustment.tsx`.  The dedup comparison
`JSON.stringify(current) === JSON.stringify(newSettings)` is modelled
as structural equality (field order is fixed, so the two coincide);
the deep copy `JSON.parse(JSON.stringify(s))` is the identity on pure
values; `slice(0, historyIndex + 1)` is `take` (the index is never
below `-1`, where JS `slice` and `take` of `0` agree); a single
`shift()` drops the oldest entry. -/
def addToHistory (st : HistState) (newSettings : CurveSettings) : HistState :=
  let current := histEntry st.history st.historyIndex
  if current = some newSettings then st
  else
    let newHistory := st.history.take (st.historyIndex + 1).toNat ++ [newSettings]
    let bounded := if 50 < newHistory.length then newHistory.drop 1 else newHistory
    { history := bounded, historyIndex := (bounded.length : Int) - 1 }

/-- `undo` from `CurveAdjustment.tsx`: returns the new history state
and the snapshot emitted through `onChange` (`none` when it was a
no-op). -/
def undo (st : HistState) : HistState × Option CurveSettings :=
  if 0 < st.historyIndex then
    ({ st with historyIndex := st.historyIndex - 1 },
      histEntry st.history (st.historyIndex - 1))
  else (st, none)

/-- `redo` from `CurveAdjustment.tsx`, same reading as `undo`. -/
def redo (st : HistState) : HistState × Option CurveSettings :=
  if st.historyIndex < (st.history.length : Int) - 1 then
    ({ st with historyIndex := st.historyIndex + 1 },
      histEntry st.history (st.historyIndex + 1))
  else (st, none)

/-! ## Retry/backoff (`services/geminiService.ts`) -/

/-- One attempt of the Gemini call, as seen by the `try`/`catch` in
`processBackground`: either an image comes back, or some error (rate
limit, network failure, or the synthesized "no image" error) is
thrown with the given message. -/
inductive Attempt
  | ok (image : String)
  | err (message : String)
deriving DecidableEq, Repr

/-- `pat` is a prefix of `target` (over char lists). -/
def listStartsWith : List Char → List Char → Bool
  | [], _ => true
  | _ :: _, [] => false
  | p :: ps, c :: cs => p = c && listStartsWith ps cs

/-- `pat` occurs as a contiguous substring of `target`
(`String.prototype.includes`). -/
def containsSub (pat : List Char) : List Char → Bool
  | [] => listStartsWith pat []
  | c :: cs => listStartsWith pat (c :: cs) || containsSub pat cs

/-- `error.message?.includes("429")`. -/
def mentions429 (msg : String) : Bool :=
  containsSub "429".data msg.data

/-- `MAX_RETRIES` from `geminiService.ts`. -/
def MAX_RETRIES : Nat := 3

/-- `INITIAL_DELAY` (ms) from `geminiService.ts`. -/
def INITIAL_DELAY : Nat := 2000

/-- `processBackground` from `geminiService.ts`, with the network
modelled as the list of outcomes of the successive attempts.  Returns
the surfaced result together with the list of backoff waits (ms)
actually slept, in order.  On an error, the recursion retries exactly
when the message contains `"429"` and `retryCount < MAX_RETRIES`,
sleeping `INITIAL_DELAY * 2 ^ retryCount` first; otherwise the message
is rethrown (`error.message || "An unexpected error occurred during AI
processing."`). -/
def processBackground : List Attempt → Nat → Except String String × List Nat
  | [], _ => (.error "An unexpected error occurred during AI processing.", [])
  | .ok image :: _, _ => (.ok image, [])
  | .err message :: rest, retryCount =>
    if mentions429 message = true ∧ retryCount < MAX_RETRIES then
      let r := processBackground rest (retryCount + 1)
      (r.1, INITIAL_DELAY * 2 ^ retryCount :: r.2)
    else
      (.error (if message = "" then "An unexpected error occurred during AI processing."
               else message), [])

/-! ## The Generate pipeline (`handleProcess` in `App.tsx`) -/

/-- One observable call made by the pipeline: curve grading, the
external AI compositor, or sheet generation, each with the image it
was given. -/
inductive CallEvent
  | applyCurvesCall (image : String)
  | aiCall (image : String)
  | sheetCall (image : String)
deriving DecidableEq, Repr

/-- The async collaborators of `handleProcess`, as deterministic
oracles: each either returns an image (data URI) or throws with a
message. -/
structure PipelineEnv where
  applyCurves : String → CurveSettings → Except String String
  processBackground : String → BackgroundColor → ClothingOption → Except String String
  generatePassportSheet : String → Except String String

/-- The React state fields `handleProcess` writes. -/
structure AppView where
  processedImage : Option String
  finalSheet : Option String
  appState : AppState
  error : Option String
  isProcessing : Bool
deriving DecidableEq, Repr

/-- `err.message || "Unknown error"`. -/
def errMessageOf (m : String) : String :=
  if m = "" then "Unknown error" else m

/-- The `catch` block of `handleProcess`: re-grade the cropped image,
regenerate the sheet from the non-AI photo, and surface the
"AI enhancement failed" warning; if that also throws, surface
"Total failure" (the `finally` clears `isProcessing` either way). -/
def handleProcessCatch (env : PipelineEnv) (croppedImage : String)
    (curveSettings : CurveSettings) (errorMessage : String) (st : AppView)
    (trace : List CallEvent) : AppView × List CallEvent :=
  match env.applyCurves croppedImage curveSettings with
  | .error _ =>
    ({ st with error := some ("Total failure: " ++ errorMessage), isProcessing := false },
      trace ++ [.applyCurvesCall croppedImage])
  | .ok fallbackPhoto =>
    match env.generatePassportSheet fallbackPhoto with
    | .error _ =>
      ({ st with error := some ("Total failure: " ++ errorMessage), isProcessing := false },
        trace ++ [.applyCurvesCall croppedImage, .sheetCall fallbackPhoto])
    | .ok sheet =>
      ({ st with finalSheet := some sheet, processedImage := some fallbackPhoto,
                 appState := .PREVIEW,
                 error := some ("AI enhancement failed: " ++ errorMessage
                   ++ ". Colored photo used.")
                 isProcessing := false },
        trace ++ [.applyCurvesCall croppedImage, .sheetCall fallbackPhoto])

/-- The tail of the `try` block after `finalPhoto` is known:
`setProcessedImage(finalPhoto)` happens before the sheet is generated,
so a sheet failure still lands in the `catch` with `processedImage`
already written. -/
def handleProcessSheet (env : PipelineEnv) (croppedImage : String)
    (curveSettings : CurveSettings) (finalPhoto : String) (st : AppView)
    (trace : List CallEvent) : AppView × List CallEvent :=
  let st' := { st with processedImage := some finalPhoto }
  match env.generatePassportSheet finalPhoto with
  | .error e =>
    handleProcessCatch env croppedImage curveSettings (errMessageOf e) st'
      (trace ++ [.sheetCall finalPhoto])
  | .ok sheet =>
    ({ st' with finalSheet := some sheet, appState := .PREVIEW, isProcessing := false },
      trace ++ [.sheetCall finalPhoto])

/-- `handleProcess` from `App.tsx`: grade the crop, call the AI
compositor exactly when `needsAI`, then compose the sheet; any throw
runs `handleProcessCatch`.  Returns the final state together with the
trace of collaborator calls in order. -/
def handleProcess (env : PipelineEnv) (croppedImage : Option String)
    (curveSettings : CurveSettings) (selectedColor : BackgroundColor)
    (selectedClothing : ClothingOption) (st0 : AppView) : AppView × List CallEvent :=
  match croppedImage with
  | none => (st0, [])
  | some cropped =>
    let st := { st0 with isProcessing := true, error := none }
    match env.applyCurves cropped curveSettings with
    | .error e =>
      handleProcessCatch env cropped curveSettings (errMessageOf e) st
        [.applyCurvesCall cropped]
    | .ok enhancedImage =>
      if selectedColor ≠ BackgroundColor.ORIGINAL ∨ selectedClothing ≠ ClothingOption.NONE then
        match env.processBackground enhancedImage selectedColor selectedClothing with
        | .error e =>
          handleProcessCatch env cropped curveSettings (errMessageOf e) st
            [.applyCurvesCall cropped, .aiCall enhancedImage]
        | .ok finalPhoto =>
          handleProcessSheet env cropped curveSettings finalPhoto st
            [.applyCurvesCall cropped, .aiCall enhancedImage]
      else
        handleProcessSheet env cropped curveSettings enhancedImage st
          [.applyCurvesCall cropped]

/-! ## Curve-editor operations (`CurveAdjustment.tsx`) -/

/-- Insertion step of the stable sort by `x`: the new element goes
after every element whose `x` is `≤` its own. -/
def insertByX (q : Point) : List Point → List Point
  | [] => [q]
  | p :: ps => if q.x < p.x then q :: p :: ps else p :: insertByX q ps

/-- Stable sort by `x`, modelling
`Array.prototype.sort((a, b) => a.x - b.x)` (ES2019 `sort` is stable,
so elements with equal `x` keep their relative order; any two stable
sorts agree, and this insertion sort is one). -/
def sortByX (l : List Point) : List Point :=
  l.foldl (fun acc p => insertByX p acc) []

/-- `handleCanvasClick` from `CurveAdjustment.tsx`: ignore the click
while a point is hovered, otherwise map the click position through the
canvas rect into curve coordinates, append the new point and re-sort
by `x`.  The rect is `canvas.getBoundingClientRect()`. -/
def handleCanvasClick (hoveredPoint : Option Nat) (settings : CurveSettings)
    (activeChannel : Channel) (clientX clientY rectLeft rectTop rectW rectH : ℚ) :
    CurveSettings :=
  if hoveredPoint ≠ none then settings
  else
    let scaleX := 255 / rectW
    let scaleY := 255 / rectH
    let x := jsRound ((clientX - rectLeft) * scaleX)
    let y := jsRound (255 - (clientY - rectTop) * scaleY)
    let points := getChannel settings activeChannel
    let newPoints := sortByX (points ++ [⟨x, y⟩])
    setChannel settings activeChannel newPoints

/-- `handleGlobalMove` (the window `mousemove` handler installed while
`draggingPoint ≠ null`): clamp the pointer position into curve
coordinates; an interior point moves in both axes, an endpoint keeps
its `x` and moves only in `y`; then re-sort by `x`.  (The dragged
index is always in range in the component; out-of-range reads of
`newPoints[draggingPoint]` cannot occur and are modelled as no-ops.) -/
def handleGlobalMove (draggingPoint : Option Nat) (settings : CurveSettings)
    (activeChannel : Channel) (clientX clientY rectLeft rectTop rectW rectH : ℚ) :
    CurveSettings :=
  match draggingPoint with
  | none => settings
  | some i =>
    let scaleX := 255 / rectW
    let scaleY := 255 / rectH
    let x := max 0 (min 255 (jsRound ((clientX - rectLeft) * scaleX)))
    let y := max 0 (min 255 (jsRound (255 - (clientY - rectTop) * scaleY)))
    let points := getChannel settings activeChannel
    let newPoints :=
      if i ≠ 0 ∧ i ≠ points.length - 1 then points.set i ⟨x, y⟩
      else
        match points.get? i with
        | some p => points.set i ⟨p.x, y⟩
        | none => points
    setChannel settings activeChannel (sortByX newPoints)

/-- `removePoint` from `CurveAdjustment.tsx`: endpoints are not
removable; an interior double-clicked point is filtered out
(`points.filter((_, i) => i !== index)`, i.e. the entry at `index` is
erased). -/
def removePoint (index : Nat) (settings : CurveSettings) (activeChannel : Channel) :
    CurveSettings :=
  let points := getChannel settings activeChannel
  if index = 0 ∨ index = points.length - 1 then settings
  else setChannel settings activeChannel (points.eraseIdx index)

/-- Strict order on control points by input intensity. -/
def ltX (a b : Point) : Prop := a.x < b.x

/-- Non-strict order on control points by input intensity. -/
def leX (a b : Point) : Prop := a.x ≤ b.x

/-- The `ChannelCurve` data-model invariant: at least two points,
strictly increasing (hence unique) `x`, first point at `x = 0`, last
point at `x = 255`. -/
def channelInv (ps : List Point) : Prop :=
  2 ≤ ps.length ∧ ps.Pairwise ltX ∧
    ps.head?.map Point.x = some 0 ∧ ps.getLast?.map Point.x = some 255

/-- The weakened invariant: as `channelInv` but with `x` only
non-decreasing (duplicate `x` values allowed). -/
def weakChannelInv (ps : List Point) : Prop :=
  2 ≤ ps.length ∧ ps.Pairwise leX ∧
    ps.head?.map Point.x = some 0 ∧ ps.getLast?.map Point.x = some 255

/-- Every channel of a `CurveSettings` satisfies `channelInv`. -/
def curveInv (s : CurveSettings) : Prop :=
  ∀ c, channelInv (getChannel s c)

/-- Every channel satisfies the weakened invariant. -/
def weakCurveInv (s : CurveSettings) : Prop :=
  ∀ c, weakChannelInv (getChannel s c)

instance : DecidablePred channelInv := fun ps => by
  unfold channelInv ltX
  infer_instance

instance : DecidablePred weakChannelInv := fun ps => by
  unfold weakChannelInv leX
  infer_instance

/-! ## Live-preview scheduler (the `useEffect` at `App.tsx` 99-118)

The debounced recomputation is modelled as a small event machine.  An
`edit` is a change of `curveSettings` re-running the effect: it clears
any pending (unfired) timer and schedules a fresh one that captured
the new settings.  `fire` is the expiry of the pending timer: the
captured settings start an `applyCurves` computation, which joins the
in-flight list.  `complete i` is the resolution of the `i`-th oldest
in-flight computation: `setGradedPreview` is called with its result.
Since `applyCurves` is deterministic per settings, the preview raster
is tracked by the settings it was rendered from. -/

/-- State of the preview scheduler. -/
structure PreviewState where
  curveSettings : CurveSettings
  pendingTimer : Option CurveSettings
  inflight : List CurveSettings
  gradedPreview : Option CurveSettings
  everEdited : Bool
deriving DecidableEq, Repr

/-- Events of the preview scheduler. -/
inductive PreviewEvent
  | edit (s : CurveSettings)
  | fire
  | complete (i : Nat)
deriving DecidableEq, Repr

/-- One step of the scheduler; see the section comment. -/
def previewStep (st : PreviewState) : PreviewEvent → PreviewState
  | .edit s => { st with curveSettings := s, pendingTimer := some s, everEdited := true }
  | .fire =>
    match st.pendingTimer with
    | some s => { st with pendingTimer := none, inflight := st.inflight ++ [s] }
    | none => st
  | .complete i =>
    match st.inflight.get? i with
    | some s => { st with inflight := st.inflight.eraseIdx i, gradedPreview := some s }
    | none => st

/-- Run the scheduler over an event list. -/
def previewRun (st : PreviewState) (evs : List PreviewEvent) : PreviewState :=
  evs.foldl previewStep st

/-- The initial scheduler state right after the crop is committed:
`gradedPreview` starts as the ungraded crop and no timer or
computation is outstanding. -/
def previewInit (s0 : CurveSettings) : PreviewState :=
  { curveSettings := s0, pendingTimer := none, inflight := [],
    gradedPreview := none, everEdited := false }

/-! ## Test fixtures and auxiliary predicates -/

/-- A family of pairwise-distinct curve settings used to exercise the
history bound: state `n` moves the upper-right control point of the
`all` channel to output `n`. -/
def distinctState (n : Nat) : CurveSettings :=
  { all := [⟨0, 0⟩, ⟨255, (n : Int)⟩], red := identityCurve,
    green := identityCurve, blue := identityCurve }

/-- A second concrete curve settings value, distinct from
`DEFAULT_CURVES`. -/
def settingsB : CurveSettings :=
  { DEFAULT_CURVES with all := [⟨0, 0⟩, ⟨255, 200⟩] }

/-- Inductive invariant of the preview scheduler: the pending timer
(if any) captured the current settings; with no pending timer, the
youngest in-flight computation captured the current settings; and in
the quiescent case the preview already reflects the current
settings. -/
def goodPreview (st : PreviewState) : Prop :=
  (∀ s, st.pendingTimer = some s → s = st.curveSettings) ∧
  (st.pendingTimer = none → st.inflight ≠ [] →
    st.inflight.getLast? = some st.curveSettings) ∧
  (st.pendingTimer = none → st.inflight = [] → st.everEdited = true →
    st.gradedPreview = some st.curveSettings)

/-- An event completes only the oldest in-flight computation (FIFO
completion order). -/
def fifoEvent : PreviewEvent → Prop
  | .complete i => i = 0
  | _ => True

instance : DecidablePred fifoEvent := fun e =>
  match e with
  | .edit _ => isTrue trivial
  | .fire => isTrue trivial
  | .complete i => inferInstanceAs (Decidable (i = 0))

/-! ## Theorems -/

/-- Claim C1: with `zoom = 1`, `rotation = 0`, `panOffset = (0,0)` and a
source image whose natural size equals the fixed crop box's
dimensions, the `CropRegion` computed by `handleCrop` is exactly the
full image bounds `{x: 0, y: 0, width: naturalWidth,
height: naturalHeight}`.  (`rotation` is forwarded to `getCroppedImg`
unchanged and does not enter the region arithmetic.) -/
theorem C1_crop_roundtrip
    (naturalWidth naturalHeight zoom panX panY containerW containerH rotation : ℚ)
    (hzoom : zoom = 1) (hrot : rotation = 0) (hpx : panX = 0) (hpy : panY = 0)
    (hw : naturalWidth = CROP_BOX_WIDTH) (hh : naturalHeight = CROP_BOX_HEIGHT) :
    handleCrop naturalWidth naturalHeight zoom panX panY containerW containerH =
      { x := 0, y := 0, width := naturalWidth, height := naturalHeight } := by
  subst hzoom hpx hpy hw hh
  unfold handleCrop
  simp only [CropRegion.mk.injEq]
  norm_num [CROP_BOX_WIDTH, CROP_BOX_HEIGHT, cropAspect]

/-- Witness for C1 at a concrete container size. -/
theorem C1_crop_roundtrip_witness :
    handleCrop CROP_BOX_WIDTH CROP_BOX_HEIGHT 1 0 0 600 520 =
      { x := 0, y := 0, width := CROP_BOX_WIDTH, height := CROP_BOX_HEIGHT } :=
  C1_crop_roundtrip CROP_BOX_WIDTH CROP_BOX_HEIGHT 1 0 0 600 520 0
    rfl rfl rfl rfl rfl rfl

/-- Claim C8: for every loaded image with positive natural dimensions,
`setupAutoCrop` sets the initial zoom to
`min(max(widthZoomHeuristic, heightZoomHeuristic), 4.0)` (over-fill
factors `2.8` and `1.5`), the horizontal pan to `0`, and the vertical
pan to `-(naturalHeight * zoom * 0.18)`. -/
theorem C8_auto_frame (naturalWidth naturalHeight : ℚ)
    (hw : 0 < naturalWidth) (hh : 0 < naturalHeight) :
    setupAutoCrop naturalWidth naturalHeight =
      (min (max ((CROP_BOX_WIDTH / naturalWidth) * (14/5))
               ((CROP_BOX_HEIGHT / naturalHeight) * (3/2))) 4,
       0,
       -(naturalHeight *
          (min (max ((CROP_BOX_WIDTH / naturalWidth) * (14/5))
                   ((CROP_BOX_HEIGHT / naturalHeight) * (3/2))) 4) * (9/50))) := by
  unfold setupAutoCrop
  norm_num

/-- Witness for C8 at a 1000×800 source image. -/
theorem C8_auto_frame_witness :
    setupAutoCrop 1000 800 =
      (min (max ((CROP_BOX_WIDTH / 1000) * (14/5)) ((CROP_BOX_HEIGHT / 800) * (3/2))) 4,
       0,
       -(800 * (min (max ((CROP_BOX_WIDTH / 1000) * (14/5))
                       ((CROP_BOX_HEIGHT / 800) * (3/2))) 4) * (9/50))) :=
  C8_auto_frame 1000 800 (by norm_num) (by norm_num)

/-- Claim C7: `undo` is a no-op at index 0 and otherwise moves the
index back one, emitting the snapshot now current; `redo` is a no-op
at the last index and otherwise moves the index forward one, emitting
that snapshot; one `redo` right after one `undo` emits the exact
pre-undo snapshot. -/
theorem C7_undo_redo :
    (∀ h : List CurveSettings, undo ⟨h, 0⟩ = (⟨h, 0⟩, none)) ∧
    (∀ (h : List CurveSettings) (i : Int), 0 < i →
      undo ⟨h, i⟩ = (⟨h, i - 1⟩, histEntry h (i - 1))) ∧
    (∀ (h : List CurveSettings) (i : Int), i = (h.length : Int) - 1 →
      redo ⟨h, i⟩ = (⟨h, i⟩, none)) ∧
    (∀ (h : List CurveSettings) (i : Int), i < (h.length : Int) - 1 →
      redo ⟨h, i⟩ = (⟨h, i + 1⟩, histEntry h (i + 1))) ∧
    (∀ (h : List CurveSettings) (i : Int), 0 < i → i < (h.length : Int) →
      (redo (undo ⟨h, i⟩).1).2 = histEntry h i) := by
  refine ⟨?_, ?_, ?_, ?_, ?_⟩
  · intro h; simp [undo]
  · intro h i hi; simp [undo, hi]
  · intro h i hi; simp [redo, hi]
  · intro h i hi; simp [redo, hi]
  · intro h i hi hlen
    have h1 : (undo ⟨h, i⟩).1 = ⟨h, i - 1⟩ := by simp [undo, hi]
    rw [h1]
    have h2 : i - 1 < (h.length : Int) - 1 := by omega
    simp [redo, h2]

/-- Witness for C7 at a concrete two-entry history. -/
theorem C7_undo_redo_witness :
    undo ⟨[DEFAULT_CURVES], 0⟩ = (⟨[DEFAULT_CURVES], 0⟩, none) ∧
    (redo (undo ⟨[DEFAULT_CURVES, DEFAULT_CURVES], 1⟩).1).2 =
      histEntry [DEFAULT_CURVES, DEFAULT_CURVES] 1 :=
  ⟨C7_undo_redo.1 [DEFAULT_CURVES],
   C7_undo_redo.2.2.2.2 [DEFAULT_CURVES, DEFAULT_CURVES] 1 (by decide) (by decide)⟩

/-- Counterexample for claim C9: the non-parsing input `"abc"` does
not reset the rotation to 0 — it leaves the previous value (45)
unchanged, because the reset branch fires only for `""` or `"-"`. -/
theorem C9_counterexample :
    handleManualRotationChange "abc" 45 = 45 ∧ (45 : ℚ) ≠ 0 := by
  constructor
  · have h : jsParseFloat "abc" = none := by decide
    simp [handleManualRotationChange, h]
  · norm_num

/-- Claim C9 as amended: a parsing input sets rotation to the parsed
value; a non-parsing input resets rotation to 0 exactly when the raw
field value is `""` or `"-"`, and leaves rotation unchanged for any
other non-parsing string. -/
theorem C9_rotation_entry (value : String) (rotation : ℚ) :
    (jsParseFloat value = none →
      handleManualRotationChange value rotation =
        if value = "" ∨ value = "-" then 0 else rotation) ∧
    (∀ q, jsParseFloat value = some q →
      handleManualRotationChange value rotation = q) := by
  constructor
  · intro h
    simp [handleManualRotationChange, h]
  · intro q h
    simp [handleManualRotationChange, h]

/-- Witness for C9: the empty field resets rotation to 0, and `"12.5"`
parses to `12.5`. -/
theorem C9_rotation_entry_witness :
    handleManualRotationChange "" 45 = 0 ∧
    handleManualRotationChange "12.5" 45 = 25/2 := by
  constructor
  · have h := (C9_rotation_entry "" 45).1 (by decide)
    simpa using h
  · have h := (C9_rotation_entry "12.5" 45).2 (25/2) ?_
    · exact h
    · show jsParseFloat "12.5" = some (25/2)
      simp [jsParseFloat, digitsVal, fracVal]
      norm_num

/-- A message carrying the rate-limit signal is in particular
non-empty, so it is surfaced verbatim on the final throw. -/
theorem mentions429_ne_empty {m : String} (h : mentions429 m = true) : m ≠ "" := by
  intro he
  subst he
  exact absurd h (by decide)

/-- After `k` rate-limited failures with `k + r ≤ MAX_RETRIES`, a
successful attempt returns its image, with backoff waits
`INITIAL_DELAY * 2 ^ (r + i)` for `i < k`. -/
theorem processBackground_ok_after :
    ∀ (msgs : List String) (image : String) (rest : List Attempt) (r : Nat),
    msgs.length + r ≤ MAX_RETRIES → (∀ m ∈ msgs, mentions429 m = true) →
    processBackground (msgs.map .err ++ .ok image :: rest) r =
      (.ok image, (List.range msgs.length).map fun i => INITIAL_DELAY * 2 ^ (r + i)) := by
  intro msgs
  induction msgs with
  | nil =>
    intro image rest r _ _
    simp [processBackground]
  | cons m ms ih =>
    intro image rest r hlen hall
    have hm : mentions429 m = true := hall m (List.mem_cons_self m ms)
    have hr : r < MAX_RETRIES := by
      unfold MAX_RETRIES at hlen ⊢
      simp only [List.length_cons] at hlen
      omega
    have hstep :
        processBackground ((m :: ms).map .err ++ .ok image :: rest) r =
          ((processBackground (ms.map .err ++ .ok image :: rest) (r + 1)).1,
            INITIAL_DELAY * 2 ^ r ::
              (processBackground (ms.map .err ++ .ok image :: rest) (r + 1)).2) := by
      simp only [List.map_cons, List.cons_append, processBackground]
      rw [if_pos ⟨hm, hr⟩]
      simp [List.append_eq]
    rw [hstep, ih image rest (r + 1)
      (by simp only [List.length_cons] at hlen; omega)
      (fun x hx => hall x (List.mem_cons_of_mem m hx))]
    simp only [Prod.mk.injEq, List.length_cons, true_and]
    rw [List.range_succ_eq_map, List.map_cons, List.map_map]
    refine List.cons_eq_cons.mpr ⟨by norm_num, ?_⟩
    apply List.map_congr_left
    intro a _
    simp only [Function.comp_apply]
    have hexp : r + 1 + a = r + a.succ := by omega
    rw [hexp]

/-- Claim C3: a non-rate-limited failure is surfaced immediately with
zero waits; four consecutive rate-limited failures exhaust the three
retries — the waits are exactly 2000, 4000, 8000 ms and the fourth
failure is surfaced; and a success after `k ≤ 3` rate-limited
failures returns that success after the first `k` backoff waits. -/
theorem C3_retry_backoff :
    (∀ (msg : String) (rest : List Attempt), mentions429 msg = false →
      processBackground (.err msg :: rest) 0 =
        (.error (if msg = "" then "An unexpected error occurred during AI processing."
                 else msg), [])) ∧
    (∀ (m1 m2 m3 m4 : String) (rest : List Attempt),
      mentions429 m1 = true → mentions429 m2 = true →
      mentions429 m3 = true → mentions429 m4 = true →
      processBackground (.err m1 :: .err m2 :: .err m3 :: .err m4 :: rest) 0 =
        (.error m4, [2000, 4000, 8000])) ∧
    (∀ (msgs : List String) (image : String) (rest : List Attempt),
      msgs.length ≤ 3 → (∀ m ∈ msgs, mentions429 m = true) →
      processBackground (msgs.map .err ++ .ok image :: rest) 0 =
        (.ok image, (List.range msgs.length).map fun i => 2000 * 2 ^ i)) := by
  refine ⟨?_, ?_, ?_⟩
  · intro msg rest h
    simp only [processBackground]
    rw [if_neg (by simp [h])]
  · intro m1 m2 m3 m4 rest h1 h2 h3 h4
    have hne := mentions429_ne_empty h4
    simp only [processBackground]
    rw [if_pos ⟨h1, by norm_num [MAX_RETRIES]⟩, if_pos ⟨h2, by norm_num [MAX_RETRIES]⟩,
        if_pos ⟨h3, by norm_num [MAX_RETRIES]⟩, if_neg (by norm_num [MAX_RETRIES])]
    rw [if_neg hne]
    norm_num [INITIAL_DELAY]
  · intro msgs image rest hlen hall
    rw [processBackground_ok_after msgs image rest 0 (by simpa [MAX_RETRIES] using hlen) hall]
    simp [INITIAL_DELAY]

/-- Witness for C3: a concrete run with two rate-limited failures then
success waits 2000 then 4000 ms and returns the image. -/
theorem C3_retry_backoff_witness :
    processBackground
        ([ "429 rate limited", "got 429 again" ].map .err ++ .ok "img" :: []) 0 =
      (.ok "img", [2000, 4000]) := by
  have h := C3_retry_backoff.2.2 ["429 rate limited", "got 429 again"] "img" []
    (by decide) (by decide)
  simpa using h

/-- Dropping the evicted head of an overfull stack keeps the newly
appended snapshot as the last entry. -/
theorem getLast?_drop_concat {α : Type} (A : List α) (s : α)
    (h : 1 < (A ++ [s]).length) : ((A ++ [s]).drop 1).getLast? = some s := by
  cases A with
  | nil => simp at h
  | cons a A =>
    simp only [List.cons_append, List.drop_succ_cons, List.drop_zero]
    exact List.getLast?_concat _

set_option maxRecDepth 10000 in
/-- Claim C2: committing the state equal to the current entry is a
no-op; otherwise the commit truncates the redo branch, appends the new
snapshot, points the index at the new last entry (evicting the oldest
entry when the stack would exceed 50); the stack never exceeds 50
entries; and committing 60 pairwise-distinct states from the empty
history leaves exactly the last 50, the oldest 10 evicted, with the
index at the tip. -/
theorem C2_history_commit :
    (∀ (st : HistState) (s : CurveSettings),
      histEntry st.history st.historyIndex = some s → addToHistory st s = st) ∧
    (∀ (st : HistState) (s : CurveSettings),
      histEntry st.history st.historyIndex ≠ some s →
      (addToHistory st s).history =
        (let t := st.history.take (st.historyIndex + 1).toNat ++ [s]
         if 50 < t.length then t.drop 1 else t) ∧
      (addToHistory st s).historyIndex =
        ((addToHistory st s).history.length : Int) - 1 ∧
      (addToHistory st s).history.getLast? = some s) ∧
    (∀ (st : HistState) (s : CurveSettings), st.history.length ≤ 50 →
      (addToHistory st s).history.length ≤ 50) ∧
    (((List.range 60).map distinctState).foldl addToHistory ⟨[], -1⟩ =
      ⟨((List.range 60).drop 10).map distinctState, 49⟩) := by
  refine ⟨?_, ?_, ?_, by decide⟩
  · intro st s h
    simp [addToHistory, h]
  · intro st s h
    refine ⟨by simp [addToHistory, h], by simp [addToHistory, h], ?_⟩
    simp only [addToHistory, if_neg h]
    split
    · next hgt => exact getLast?_drop_concat _ _ (by omega)
    · exact List.getLast?_concat _
  · intro st s h
    simp only [addToHistory]
    split
    · exact h
    · have ht : (st.history.take (st.historyIndex + 1).toNat ++ [s]).length =
          min (st.historyIndex + 1).toNat st.history.length + 1 := by
        simp [List.length_append, List.length_take]
      split
      · next hgt =>
        simp only [List.length_drop, ht]
        omega
      · next hle =>
        simp only [not_lt] at hle
        simpa using hle

/-- Witness for C2: the dedup no-op, the append behaviour and the
bound, at concrete histories. -/
theorem C2_history_commit_witness :
    addToHistory ⟨[DEFAULT_CURVES], 0⟩ DEFAULT_CURVES = ⟨[DEFAULT_CURVES], 0⟩ ∧
    (addToHistory ⟨[DEFAULT_CURVES], 0⟩ settingsB).history.getLast? = some settingsB ∧
    (addToHistory ⟨[DEFAULT_CURVES], 0⟩ settingsB).history.length ≤ 50 := by
  refine ⟨C2_history_commit.1 ⟨[DEFAULT_CURVES], 0⟩ DEFAULT_CURVES (by decide),
    (C2_history_commit.2.1 ⟨[DEFAULT_CURVES], 0⟩ settingsB (by decide)).2.2,
    C2_history_commit.2.2.1 ⟨[DEFAULT_CURVES], 0⟩ settingsB (by decide)⟩

/-- A char list starts with itself followed by anything. -/
theorem listStartsWith_append (p rest : List Char) :
    listStartsWith p (p ++ rest) = true := by
  induction p with
  | nil => rfl
  | cons c cs ih => simp [listStartsWith, ih]

/-- String append acts as list append on the underlying characters. -/
theorem data_append (s t : String) : (s ++ t).data = s.data ++ t.data := rfl

/-- Claim C4: when curve grading succeeds but the AI compositor fails
(its retries exhausted), `handleProcess` re-derives the graded photo
from the cropped image, still produces a sheet from that non-AI photo,
transitions to the preview state and surfaces a warning beginning
"AI enhancement failed"; if sheet generation fails in the fallback as
well, no sheet is set, the state does not advance, and a fatal message
beginning "Total failure" is surfaced. -/
theorem C4_pipeline_fallback (env : PipelineEnv) (cropped graded : String)
    (cs : CurveSettings) (color : BackgroundColor) (clothing : ClothingOption)
    (st0 : AppView) (m : String)
    (hac : env.applyCurves cropped cs = .ok graded)
    (hneeds : color ≠ BackgroundColor.ORIGINAL ∨ clothing ≠ ClothingOption.NONE)
    (hai : env.processBackground graded color clothing = .error m) :
    (∀ sheet, env.generatePassportSheet graded = .ok sheet →
      handleProcess env (some cropped) cs color clothing st0 =
        ({ processedImage := some graded, finalSheet := some sheet,
           appState := AppState.PREVIEW,
           error := some ("AI enhancement failed: " ++ errMessageOf m
             ++ ". Colored photo used."),
           isProcessing := false },
         [CallEvent.applyCurvesCall cropped, CallEvent.aiCall graded,
          CallEvent.applyCurvesCall cropped, CallEvent.sheetCall graded]) ∧
      listStartsWith "AI enhancement failed".data
        ("AI enhancement failed: " ++ errMessageOf m
          ++ ". Colored photo used.").data = true) ∧
    (∀ m2, env.generatePassportSheet graded = .error m2 →
      (handleProcess env (some cropped) cs color clothing st0).1.finalSheet =
        st0.finalSheet ∧
      (handleProcess env (some cropped) cs color clothing st0).1.appState =
        st0.appState ∧
      (handleProcess env (some cropped) cs color clothing st0).1.error =
        some ("Total failure: " ++ errMessageOf m) ∧
      listStartsWith "Total failure".data
        ("Total failure: " ++ errMessageOf m).data = true) := by
  constructor
  · intro sheet hsheet
    constructor
    · simp [handleProcess, hac, if_pos hneeds, hai, handleProcessCatch, hsheet]
    · have h1 : ("AI enhancement failed: " : String).data =
          "AI enhancement failed".data ++ ": ".data := by decide
      rw [data_append, data_append, h1, List.append_assoc, List.append_assoc]
      exact listStartsWith_append _ _
  · intro m2 hsheet
    refine ⟨?_, ?_, ?_, ?_⟩
    · simp [handleProcess, hac, if_pos hneeds, hai, handleProcessCatch, hsheet]
    · simp [handleProcess, hac, if_pos hneeds, hai, handleProcessCatch, hsheet]
    · simp [handleProcess, hac, if_pos hneeds, hai, handleProcessCatch, hsheet]
    · have h1 : ("Total failure: " : String).data =
          "Total failure".data ++ ": ".data := by decide
      rw [data_append, h1, List.append_assoc]
      exact listStartsWith_append _ _

/-- An environment used to witness the pipeline theorems on concrete
inputs: grading and sheet generation succeed deterministically, the AI
compositor always reports a rate-limit failure. -/
def witnessEnv : PipelineEnv :=
  { applyCurves := fun img _ => .ok ("graded-" ++ img)
    processBackground := fun _ _ _ => .error "429 rate limited"
    generatePassportSheet := fun img => .ok ("sheet-" ++ img) }

/-- The initial view state used by the pipeline witnesses. -/
def initView : AppView :=
  { processedImage := none, finalSheet := none, appState := AppState.PROCESS,
    error := none, isProcessing := false }

/-- Witness for C4: with a concrete environment in which the AI call
fails, the fallback sheet is produced and the warning is surfaced. -/
theorem C4_pipeline_fallback_witness :
    handleProcess witnessEnv (some "crop") DEFAULT_CURVES BackgroundColor.WHITE
        ClothingOption.NONE initView =
      ({ processedImage := some "graded-crop", finalSheet := some "sheet-graded-crop",
         appState := AppState.PREVIEW,
         error := some ("AI enhancement failed: " ++ errMessageOf "429 rate limited"
           ++ ". Colored photo used."),
         isProcessing := false },
       [CallEvent.applyCurvesCall "crop", CallEvent.aiCall "graded-crop",
        CallEvent.applyCurvesCall "crop", CallEvent.sheetCall "graded-crop"]) :=
  ((C4_pipeline_fallback witnessEnv "crop" "graded-crop" DEFAULT_CURVES
      BackgroundColor.WHITE ClothingOption.NONE initView "429 rate limited"
      rfl (Or.inl (by decide)) rfl).1 "sheet-graded-crop" rfl).1

/-- Claim C10: provided grading succeeds, `handleProcess` calls the AI
compositor iff the background is not "Don't Change" or the clothing is
not NONE; with both at their unchanged values no AI call occurs and
every sheet call receives exactly the curve-graded cropped image. -/
theorem C10_ai_skip (env : PipelineEnv) (cropped graded : String)
    (cs : CurveSettings) (color : BackgroundColor) (clothing : ClothingOption)
    (st0 : AppView)
    (hac : env.applyCurves cropped cs = .ok graded) :
    ((∃ img, CallEvent.aiCall img ∈
        (handleProcess env (some cropped) cs color clothing st0).2) ↔
      (color ≠ BackgroundColor.ORIGINAL ∨ clothing ≠ ClothingOption.NONE)) ∧
    (color = BackgroundColor.ORIGINAL → clothing = ClothingOption.NONE →
      (∀ img, CallEvent.sheetCall img ∈
          (handleProcess env (some cropped) cs color clothing st0).2 → img = graded) ∧
      (∃ img, CallEvent.sheetCall img ∈
          (handleProcess env (some cropped) cs color clothing st0).2) ∧
      (∀ img, CallEvent.aiCall img ∉
          (handleProcess env (some cropped) cs color clothing st0).2)) := by
  by_cases hneeds : color ≠ BackgroundColor.ORIGINAL ∨ clothing ≠ ClothingOption.NONE
  · constructor
    · rw [iff_true_right hneeds]
      rcases hpb : env.processBackground graded color clothing with m | fp
      · rcases hs2 : env.generatePassportSheet graded with m2 | sh
        all_goals
          simp [handleProcess, hac, if_pos hneeds, hpb, handleProcessCatch,
            handleProcessSheet, hs2]
      · rcases hsheet : env.generatePassportSheet fp with m2 | sh
        · rcases hs2 : env.generatePassportSheet graded with m3 | sh2
          all_goals
            simp [handleProcess, hac, if_pos hneeds, hpb, handleProcessCatch,
              handleProcessSheet, hsheet, hs2]
        · simp [handleProcess, hac, if_pos hneeds, hpb, handleProcessSheet, hsheet]
    · intro hcol hclo
      exact absurd (Or.resolve_left hneeds (not_not_intro hcol)) (not_not_intro hclo)
  · have hcol : color = BackgroundColor.ORIGINAL := by
      by_contra hc
      exact hneeds (Or.inl hc)
    have hclo : clothing = ClothingOption.NONE := by
      by_contra hc
      exact hneeds (Or.inr hc)
    constructor
    · rw [iff_false_right hneeds]
      rcases hsheet : env.generatePassportSheet graded with m2 | sh
      all_goals
        simp [handleProcess, hac, if_neg hneeds, handleProcessCatch,
          handleProcessSheet, hsheet]
    · intro _ _
      rcases hsheet : env.generatePassportSheet graded with m2 | sh
      all_goals
        refine ⟨?_, ?_, ?_⟩ <;>
          simp [handleProcess, hac, if_neg hneeds, handleProcessCatch,
            handleProcessSheet, hsheet]

/-- Witness for C10: with background "Don't Change" and clothing NONE
no AI call is made and the sheet is built from the graded crop. -/
theorem C10_ai_skip_witness :
    CallEvent.aiCall "graded-crop" ∉
      (handleProcess witnessEnv (some "crop") DEFAULT_CURVES BackgroundColor.ORIGINAL
        ClothingOption.NONE initView).2 ∧
    CallEvent.sheetCall "graded-crop" ∈
      (handleProcess witnessEnv (some "crop") DEFAULT_CURVES BackgroundColor.ORIGINAL
        ClothingOption.NONE initView).2 := by
  have h := (C10_ai_skip witnessEnv "crop" "graded-crop" DEFAULT_CURVES
    BackgroundColor.ORIGINAL ClothingOption.NONE initView rfl).2 rfl rfl
  exact ⟨h.2.2 "graded-crop", by decide⟩

/-- Prepending to a non-empty list keeps its last element. -/
theorem getLast?_cons_of_ne {α : Type} (a : α) (l : List α) (h : l ≠ []) :
    (a :: l).getLast? = l.getLast? := by
  cases l with
  | nil => exact absurd rfl h
  | cons b t => rfl

/-- Counterexample for claim C6: with two overlapping in-flight
recomputations completing out of order, the stale first computation
overwrites the newer preview; at quiescence (no pending timer, nothing
in flight) the preview shows `settingsB`, not the current settings
`distinctState 7`.  The effect clears only unfired timers — nothing
guards against a stale async completion. -/
theorem C6_counterexample :
    (previewRun (previewInit DEFAULT_CURVES)
        [.edit settingsB, .fire, .edit (distinctState 7), .fire,
         .complete 1, .complete 0]).gradedPreview = some settingsB ∧
    (previewRun (previewInit DEFAULT_CURVES)
        [.edit settingsB, .fire, .edit (distinctState 7), .fire,
         .complete 1, .complete 0]).curveSettings = distinctState 7 ∧
    (previewRun (previewInit DEFAULT_CURVES)
        [.edit settingsB, .fire, .edit (distinctState 7), .fire,
         .complete 1, .complete 0]).pendingTimer = none ∧
    (previewRun (previewInit DEFAULT_CURVES)
        [.edit settingsB, .fire, .edit (distinctState 7), .fire,
         .complete 1, .complete 0]).inflight = [] ∧
    settingsB ≠ distinctState 7 := by
  decide

/-- `previewStep` preserves the scheduler invariant when completions
are FIFO. -/
theorem goodPreview_step (st : PreviewState) (e : PreviewEvent)
    (hg : goodPreview st) (hf : fifoEvent e) : goodPreview (previewStep st e) := by
  obtain ⟨h1, h2, h3⟩ := hg
  cases e with
  | edit s =>
    refine ⟨?_, ?_, ?_⟩ <;> simp [previewStep, goodPreview]
  | fire =>
    rcases hp : st.pendingTimer with _ | s
    · simpa [previewStep, hp] using ⟨h1, h2, h3⟩
    · have hs : s = st.curveSettings := h1 s hp
      refine ⟨?_, ?_, ?_⟩ <;> simp [previewStep, hp, hs, List.getLast?_concat]
  | complete i =>
    have hi : i = 0 := hf
    subst hi
    rcases hin : st.inflight with _ | ⟨c, rest⟩
    · simpa [previewStep, hin] using ⟨h1, h2, h3⟩
    · simp only [previewStep, hin, List.get?_cons_zero, List.eraseIdx_cons_zero]
      refine ⟨h1, ?_, ?_⟩
      · intro hp hne
        have hlast := h2 hp (by simp [hin])
        rw [hin, getLast?_cons_of_ne c rest hne] at hlast
        exact hlast
      · intro hp hemp _
        replace hemp : rest = [] := hemp
        have hlast := h2 hp (by simp [hin])
        rw [hin, hemp] at hlast
        simpa using hlast

/-- The scheduler invariant is preserved along any FIFO event list. -/
theorem goodPreview_run (evs : List PreviewEvent) :
    ∀ st : PreviewState, goodPreview st → (∀ e ∈ evs, fifoEvent e) →
      goodPreview (previewRun st evs) := by
  induction evs with
  | nil => intro st hg _; exact hg
  | cons e evs ih =>
    intro st hg hf
    exact ih (previewStep st e)
      (goodPreview_step st e hg (hf e (List.mem_cons_self e evs)))
      (fun x hx => hf x (List.mem_cons_of_mem e hx))

/-- Claim C6 as amended: in every interleaving whose completions occur
in the order the recomputations started (FIFO — in particular whenever
at most one recomputation is ever in flight), the preview at
quiescence reflects the most recent settings; a superseded unfired
timer is always discarded by construction.  (Out-of-order completions
of overlapping recomputations can still overwrite a newer preview —
see the counterexample.) -/
theorem C6_last_commit_wins (s0 : CurveSettings) (evs : List PreviewEvent)
    (hfifo : ∀ e ∈ evs, fifoEvent e)
    (hp : (previewRun (previewInit s0) evs).pendingTimer = none)
    (hq : (previewRun (previewInit s0) evs).inflight = [])
    (he : (previewRun (previewInit s0) evs).everEdited = true) :
    (previewRun (previewInit s0) evs).gradedPreview =
      some (previewRun (previewInit s0) evs).curveSettings := by
  have hg : goodPreview (previewInit s0) := by
    refine ⟨?_, ?_, ?_⟩ <;> simp [previewInit, goodPreview]
  exact (goodPreview_run evs (previewInit s0) hg hfifo).2.2 hp hq he

/-- Witness for C6 (amended): one edit, one fire, one FIFO completion
leaves the preview at the edited settings. -/
theorem C6_last_commit_wins_witness :
    (previewRun (previewInit DEFAULT_CURVES)
        [.edit settingsB, .fire, .complete 0]).gradedPreview =
      some (previewRun (previewInit DEFAULT_CURVES)
        [.edit settingsB, .fire, .complete 0]).curveSettings :=
  C6_last_commit_wins DEFAULT_CURVES [.edit settingsB, .fire, .complete 0]
    (by decide) (by decide) (by decide) (by decide)

/-! ### Sorting and invariant lemmas for the curve editor -/

/-- Inserting is a permutation of consing. -/
theorem insertByX_perm (q : Point) (l : List Point) :
    List.Perm (insertByX q l) (q :: l) := by
  induction l with
  | nil => rfl
  | cons p ps ih =>
    simp only [insertByX]
    split
    · rfl
    · exact ((ih.cons p).trans (List.Perm.swap q p ps))

/-- Membership through `insertByX`. -/
theorem mem_insertByX {a q : Point} {l : List Point} :
    a ∈ insertByX q l ↔ a = q ∨ a ∈ l := by
  rw [(insertByX_perm q l).mem_iff, List.mem_cons]

/-- `insertByX` preserves sortedness by `x`. -/
theorem insertByX_pairwise (q : Point) (l : List Point) (h : l.Pairwise leX) :
    (insertByX q l).Pairwise leX := by
  induction l with
  | nil => simp [insertByX, List.pairwise_singleton]
  | cons p ps ih =>
    rw [List.pairwise_cons] at h
    obtain ⟨hp, hps⟩ := h
    simp only [insertByX]
    split
    · next hlt =>
      rw [List.pairwise_cons]
      refine ⟨?_, List.pairwise_cons.mpr ⟨hp, hps⟩⟩
      intro b hb
      rcases List.mem_cons.mp hb with rfl | hb2
      · exact le_of_lt hlt
      · exact le_trans (le_of_lt hlt) (show p.x ≤ b.x from hp b hb2)
    · next hge =>
      rw [List.pairwise_cons]
      refine ⟨?_, ih hps⟩
      intro b hb
      rcases mem_insertByX.mp hb with rfl | hb2
      · exact not_lt.mp hge
      · exact hp b hb2

/-- The accumulator form of `sortByX` preserves sortedness. -/
theorem sortFold_pairwise (l : List Point) :
    ∀ acc : List Point, acc.Pairwise leX →
      (l.foldl (fun acc p => insertByX p acc) acc).Pairwise leX := by
  induction l with
  | nil => intro acc h; exact h
  | cons p ps ih =>
    intro acc h
    exact ih (insertByX p acc) (insertByX_pairwise p acc h)

/-- `sortByX`'s output is sorted (non-strictly) by `x`. -/
theorem sortByX_pairwise (l : List Point) : (sortByX l).Pairwise leX :=
  sortFold_pairwise l [] List.Pairwise.nil

/-- The accumulator form of `sortByX` is a permutation of
`acc ++ l`. -/
theorem sortFold_perm (l : List Point) :
    ∀ acc : List Point,
      List.Perm (l.foldl (fun acc p => insertByX p acc) acc) (acc ++ l) := by
  induction l with
  | nil => intro acc; simp
  | cons p ps ih =>
    intro acc
    refine (ih (insertByX p acc)).trans ?_
    refine (List.Perm.append_right ps ((insertByX_perm p acc))).trans ?_
    exact List.perm_middle.symm

/-- `sortByX` is a permutation of its input. -/
theorem sortByX_perm (l : List Point) : List.Perm (sortByX l) l := sortFold_perm l []

/-- Membership through `sortByX`. -/
theorem mem_sortByX {a : Point} {l : List Point} : a ∈ sortByX l ↔ a ∈ l :=
  (sortByX_perm l).mem_iff

/-- `sortByX` preserves length. -/
theorem length_sortByX (l : List Point) : (sortByX l).length = l.length :=
  (sortByX_perm l).length_eq

/-- A sorted list that contains an `x = 0` element and has no negative
`x` starts with `x = 0`. -/
theorem head?_sorted_zero (l : List Point) (hs : l.Pairwise leX)
    (h0 : ∃ p ∈ l, p.x = 0) (hall : ∀ p ∈ l, 0 ≤ p.x) :
    l.head?.map Point.x = some 0 := by
  cases l with
  | nil => simp at h0
  | cons a t =>
    rw [List.pairwise_cons] at hs
    obtain ⟨z, hz, hzx⟩ := h0
    have ha : a.x = 0 := by
      rcases List.mem_cons.mp hz with rfl | hz2
      · exact hzx
      · have h1 : a.x ≤ z.x := hs.1 z hz2
        have h2 := hall a (List.mem_cons_self a t)
        rw [hzx] at h1
        exact le_antisymm h1 h2
    simp [ha]

/-- A sorted list that contains an `x = 255` element and has no `x`
above 255 ends with `x = 255`. -/
theorem getLast?_sorted_max (l : List Point) (hs : l.Pairwise leX)
    (h255 : ∃ p ∈ l, p.x = 255) (hall : ∀ p ∈ l, p.x ≤ 255) :
    l.getLast?.map Point.x = some 255 := by
  induction l with
  | nil => simp at h255
  | cons a t ih =>
    cases t with
    | nil =>
      obtain ⟨z, hz, hzx⟩ := h255
      rcases List.mem_cons.mp hz with rfl | hz2
      · simp [List.getLast?, hzx]
      · simp at hz2
    | cons b t2 =>
      rw [getLast?_cons_of_ne a (b :: t2) (by simp)]
      rw [List.pairwise_cons] at hs
      apply ih hs.2
      · obtain ⟨z, hz, hzx⟩ := h255
        rcases List.mem_cons.mp hz with rfl | hz2
        · refine ⟨b, List.mem_cons_self b t2, ?_⟩
          have h1 : z.x ≤ b.x := hs.1 b (List.mem_cons_self b t2)
          have h2 := hall b (List.mem_cons_of_mem z (List.mem_cons_self b t2))
          rw [hzx] at h1
          exact le_antisymm h2 h1
        · exact ⟨z, hz2, hzx⟩
      · intro p hp
        exact hall p (List.mem_cons_of_mem a hp)

/-- In a sorted list every element is at most the last one. -/
theorem le_getLast_of_sorted (l : List Point) (hs : l.Pairwise leX) (b : Point)
    (hb : l.getLast? = some b) : ∀ p ∈ l, p.x ≤ b.x := by
  induction l with
  | nil => simp
  | cons a t ih =>
    cases t with
    | nil =>
      simp only [List.getLast?_singleton, Option.some.injEq] at hb
      subst hb
      intro p hp
      rcases List.mem_cons.mp hp with rfl | h2
      · exact le_refl _
      · simp at h2
    | cons c t2 =>
      rw [getLast?_cons_of_ne a (c :: t2) (by simp)] at hb
      rw [List.pairwise_cons] at hs
      intro p hp
      rcases List.mem_cons.mp hp with rfl | h2
      · exact (show p.x ≤ b.x from hs.1 b (List.mem_of_mem_getLast? hb))
      · exact ih hs.2 hb p h2

/-- Strict sortedness weakens to non-strict. -/
theorem pairwise_leX_of_ltX {l : List Point} (h : l.Pairwise ltX) :
    l.Pairwise leX :=
  h.imp (fun hab => le_of_lt hab)

/-- The weakened invariant follows from the strict one. -/
theorem weak_of_channelInv {ps : List Point} (h : channelInv ps) :
    weakChannelInv ps :=
  ⟨h.1, pairwise_leX_of_ltX h.2.1, h.2.2.1, h.2.2.2⟩

/-- A weakened settings-level invariant follows from the strict one. -/
theorem weakCurveInv_of_curveInv {s : CurveSettings} (h : curveInv s) :
    weakCurveInv s :=
  fun c => weak_of_channelInv (h c)

/-- Every control point of an invariant-satisfying curve has
`x ∈ [0, 255]`. -/
theorem bounds_of_channelInv {ps : List Point} (h : channelInv ps) :
    ∀ p ∈ ps, 0 ≤ p.x ∧ p.x ≤ 255 := by
  obtain ⟨hlen, hsort, hhead, hlast⟩ := h
  have hle := pairwise_leX_of_ltX hsort
  obtain ⟨b, hb, hbx⟩ := Option.map_eq_some'.mp hlast
  cases ps with
  | nil => simp at hhead
  | cons a t =>
    simp only [List.head?_cons, Option.map_some', Option.some.injEq] at hhead
    intro p hp
    constructor
    · rcases List.mem_cons.mp hp with rfl | h2
      · rw [hhead]
      · rw [List.pairwise_cons] at hle
        calc (0 : Int) = a.x := hhead.symm
        _ ≤ p.x := show a.x ≤ p.x from hle.1 p h2
    · calc p.x ≤ b.x := le_getLast_of_sorted _ hle b hb p hp
      _ = 255 := hbx

/-- An invariant-satisfying curve contains a point with `x = 0`. -/
theorem exists_zero_of_channelInv {ps : List Point} (h : channelInv ps) :
    ∃ p ∈ ps, p.x = 0 := by
  obtain ⟨_, _, hhead, _⟩ := h
  cases ps with
  | nil => simp at hhead
  | cons a t =>
    simp only [List.head?_cons, Option.map_some', Option.some.injEq] at hhead
    exact ⟨a, List.mem_cons_self a t, hhead⟩

/-- An invariant-satisfying curve contains a point with `x = 255`. -/
theorem exists_max_of_channelInv {ps : List Point} (h : channelInv ps) :
    ∃ p ∈ ps, p.x = 255 := by
  obtain ⟨_, _, _, hlast⟩ := h
  obtain ⟨b, hb, hbx⟩ := Option.map_eq_some'.mp hlast
  exact ⟨b, List.mem_of_mem_getLast? hb, hbx⟩

/-- The central preservation step: sorting any point list that keeps
at least two points, a point at `x = 0`, a point at `x = 255` and all
`x` within `[0, 255]` yields a curve satisfying the weakened
invariant. -/
theorem weakChannelInv_sortByX (l : List Point) (hlen : 2 ≤ l.length)
    (h0 : ∃ p ∈ l, p.x = 0) (h255 : ∃ p ∈ l, p.x = 255)
    (hb : ∀ p ∈ l, 0 ≤ p.x ∧ p.x ≤ 255) : weakChannelInv (sortByX l) := by
  refine ⟨?_, sortByX_pairwise l, ?_, ?_⟩
  · rw [length_sortByX]; exact hlen
  · apply head?_sorted_zero _ (sortByX_pairwise l)
    · obtain ⟨p, hp, hpx⟩ := h0
      exact ⟨p, mem_sortByX.mpr hp, hpx⟩
    · intro p hp
      exact (hb p (mem_sortByX.mp hp)).1
  · apply getLast?_sorted_max _ (sortByX_pairwise l)
    · obtain ⟨p, hp, hpx⟩ := h255
      exact ⟨p, mem_sortByX.mpr hp, hpx⟩
    · intro p hp
      exact (hb p (mem_sortByX.mp hp)).2

/-- `Math.round` of a value in `[0, 255]` lands in `[0, 255]`. -/
theorem jsRound_range {q : ℚ} (h0 : 0 ≤ q) (h255 : q ≤ 255) :
    0 ≤ jsRound q ∧ jsRound q ≤ 255 := by
  constructor
  · exact Int.le_floor.mpr (by push_cast; linarith)
  · calc jsRound q ≤ ⌊(255 : ℚ) + 1/2⌋ := Int.floor_le_floor (by linarith)
    _ = 255 := by norm_num

/-- A click offset within the canvas rect scales into `[0, 255]`. -/
theorem scaled_range {d w : ℚ} (hw : 0 < w) (h0 : 0 ≤ d) (h1 : d ≤ w) :
    0 ≤ d * (255 / w) ∧ d * (255 / w) ≤ 255 := by
  constructor
  · positivity
  · rw [mul_div_assoc', div_le_iff hw]
    nlinarith

/-- Clamping `max 0 (min 255 _)` lands in `[0, 255]`. -/
theorem clamp_range (z : Int) : 0 ≤ max 0 (min 255 z) ∧ max 0 (min 255 z) ≤ 255 :=
  ⟨le_max_left 0 _, max_le (by norm_num) (min_le_left 255 z)⟩

/-- Setting an index other than the last one keeps the last entry. -/
theorem getLast?_set_ne (ps : List Point) (i : Nat) (q : Point)
    (hne : i ≠ ps.length - 1) : (ps.set i q).getLast? = ps.getLast? := by
  rw [List.getLast?_eq_get?, List.getLast?_eq_get?, List.length_set,
    List.get?_set_ne q ps hne]

/-- The head of an invariant-satisfying curve survives setting any
other index, as an `x = 0` member. -/
theorem exists_zero_of_set {ps : List Point} (h : channelInv ps) (i : Nat)
    (q : Point) (hne : i ≠ 0) : ∃ p ∈ ps.set i q, p.x = 0 := by
  cases ps with
  | nil => exact absurd h.2.2.1 (by simp)
  | cons a t =>
    obtain ⟨j, rfl⟩ := Nat.exists_eq_succ_of_ne_zero hne
    have hax : a.x = 0 := by
      have := h.2.2.1
      simpa using this
    exact ⟨a, by simp [List.set_cons_succ], hax⟩

/-- The last point of an invariant-satisfying curve survives setting
any other index, as an `x = 255` member. -/
theorem exists_max_of_set {ps : List Point} (h : channelInv ps) (i : Nat)
    (q : Point) (hne : i ≠ ps.length - 1) : ∃ p ∈ ps.set i q, p.x = 255 := by
  obtain ⟨b, hb, hbx⟩ := Option.map_eq_some'.mp h.2.2.2
  refine ⟨b, ?_, hbx⟩
  apply List.mem_of_mem_getLast?
  rw [getLast?_set_ne ps i q hne]
  exact hb

/-- All `x` bounds survive a set whose new point is in range. -/
theorem bounds_of_set {ps : List Point} (h : channelInv ps) (i : Nat)
    (q : Point) (hq : 0 ≤ q.x ∧ q.x ≤ 255) :
    ∀ p ∈ ps.set i q, 0 ≤ p.x ∧ p.x ≤ 255 := by
  intro p hp
  rcases List.mem_or_eq_of_mem_set hp with h2 | rfl
  · exact bounds_of_channelInv h p h2
  · exact hq

/-- The value written by `set` is a member when the index is in
range. -/
theorem set_mem_self (ps : List Point) (i : Nat) (q : Point)
    (hi : i < ps.length) : q ∈ ps.set i q := by
  have hlen : i < (ps.set i q).length := by simpa using hi
  have hval : (ps.set i q)[i] = q := List.getElem_set_self hlen
  nth_rewrite 2 [← hval]
  exact List.getElem_mem hlen

/-- The first point of an invariant-satisfying curve has `x = 0`. -/
theorem getElem_zero_of_channelInv {ps : List Point} (h : channelInv ps)
    (h0 : 0 < ps.length) : ps[0].x = 0 := by
  cases ps with
  | nil => simp at h0
  | cons a t =>
    have := h.2.2.1
    simpa using this

/-- The last point of an invariant-satisfying curve has `x = 255`. -/
theorem getElem_last_of_channelInv {ps : List Point} (h : channelInv ps)
    (hl : ps.length - 1 < ps.length) : ps[ps.length - 1].x = 255 := by
  have hlast := h.2.2.2
  rw [List.getLast?_eq_get?, List.get?_eq_getElem?, List.getElem?_eq_getElem hl] at hlast
  simpa using hlast

/-- Erasing an index below the last keeps the last entry. -/
theorem getLast?_eraseIdx (ps : List Point) :
    ∀ i : Nat, i + 1 < ps.length → (ps.eraseIdx i).getLast? = ps.getLast? := by
  induction ps with
  | nil => intro i h; simp at h
  | cons a t ih =>
    intro i h
    cases i with
    | zero =>
      have ht : t ≠ [] := by
        simp only [List.length_cons] at h
        exact List.ne_nil_of_length_pos (by omega)
      rw [List.eraseIdx_cons_zero, getLast?_cons_of_ne a t ht]
    | succ j =>
      simp only [List.length_cons] at h
      have ht : t ≠ [] := List.ne_nil_of_length_pos (by omega)
      have herase : t.eraseIdx j ≠ [] := by
        have := List.length_eraseIdx_of_lt (show j < t.length by omega)
        exact List.ne_nil_of_length_pos (by omega)
      rw [List.eraseIdx_cons_succ, getLast?_cons_of_ne a _ herase,
        getLast?_cons_of_ne a t ht]
      exact ih j (by omega)

/-- Erasing an index other than 0 keeps the head. -/
theorem head?_eraseIdx (ps : List Point) (i : Nat) (hne : i ≠ 0)
    (hi : i < ps.length) : (ps.eraseIdx i).head? = ps.head? := by
  cases ps with
  | nil => simp at hi
  | cons a t =>
    obtain ⟨j, rfl⟩ := Nat.exists_eq_succ_of_ne_zero hne
    rw [List.eraseIdx_cons_succ]
    cases t with
    | nil =>
      simp only [List.length_cons, List.length_nil] at hi
      omega
    | cons b t2 => cases j <;> rfl

/-- Reading a channel through an update of (possibly another)
channel. -/
theorem getChannel_setChannel (s : CurveSettings) (ch c : Channel)
    (ps : List Point) :
    getChannel (setChannel s ch ps) c = if c = ch then ps else getChannel s c := by
  cases ch <;> cases c <;> simp [getChannel, setChannel]

/-- Counterexample for claim C5: clicking the canvas at the left edge
(mapping to curve coordinate `x = 0`, `y = 100`) on the default
identity curve inserts a point whose `x` collides with the existing
`x = 0` endpoint — the result has duplicate, non-strictly-increasing
`x` values, violating the ChannelCurve invariant. -/
theorem C5_counterexample :
    channelInv (getChannel DEFAULT_CURVES Channel.all) ∧
    getChannel (handleCanvasClick none DEFAULT_CURVES Channel.all 0 155 0 0 255 255)
        Channel.all = [⟨0, 0⟩, ⟨0, 100⟩, ⟨255, 255⟩] ∧
    ¬ channelInv [⟨0, 0⟩, ⟨0, 100⟩, ⟨255, 255⟩] := by
  refine ⟨by decide, ?_, by decide⟩
  have hx : jsRound ((0 - 0) * (255 / 255) : ℚ) = 0 := by norm_num [jsRound]
  have hy : jsRound ((255 : ℚ) - (155 - 0) * (255 / 255)) = 100 := by norm_num [jsRound]
  simp only [handleCanvasClick, ne_eq, not_true_eq_false, if_false, hx, hy]
  decide

/-- Claim C5 as amended: adding a point by canvas click and dragging a
point preserve, for every channel, the weakened invariant (first point
`x = 0`, last point `x = 255`, at least two points, `x` values
non-decreasing — the uniqueness / strict-increase half can be broken
by an `x` collision, see the counterexample); removing an interior
point preserves the full invariant. -/
theorem C5_curve_ops_weak_inv :
    (∀ (hov : Option Nat) (s : CurveSettings) (ch : Channel)
       (cX cY rLeft rTop rWidth rHeight : ℚ),
      curveInv s → 0 < rWidth → rLeft ≤ cX → cX ≤ rLeft + rWidth →
      weakCurveInv (handleCanvasClick hov s ch cX cY rLeft rTop rWidth rHeight)) ∧
    (∀ (dp : Option Nat) (s : CurveSettings) (ch : Channel)
       (cX cY rLeft rTop rWidth rHeight : ℚ),
      curveInv s → (∀ i, dp = some i → i < (getChannel s ch).length) →
      weakCurveInv (handleGlobalMove dp s ch cX cY rLeft rTop rWidth rHeight)) ∧
    (∀ (index : Nat) (s : CurveSettings) (ch : Channel),
      curveInv s → curveInv (removePoint index s ch)) := by
  refine ⟨?_, ?_, ?_⟩
  · -- canvas click
    intro hov s ch cX cY rLeft rTop rWidth rHeight hinv hW h1 h2
    rcases hov with _ | k
    · have hsc := scaled_range hW (by linarith : (0:ℚ) ≤ cX - rLeft)
        (by linarith : cX - rLeft ≤ rWidth)
      have hxb := jsRound_range hsc.1 hsc.2
      simp only [handleCanvasClick, ne_eq, not_true_eq_false, if_false]
      intro c
      rw [getChannel_setChannel]
      split
      · apply weakChannelInv_sortByX
        · rw [List.length_append]
          have := (hinv ch).1
          simp only [List.length_cons, List.length_nil]
          omega
        · obtain ⟨p, hp, hpx⟩ := exists_zero_of_channelInv (hinv ch)
          exact ⟨p, List.mem_append_left _ hp, hpx⟩
        · obtain ⟨p, hp, hpx⟩ := exists_max_of_channelInv (hinv ch)
          exact ⟨p, List.mem_append_left _ hp, hpx⟩
        · intro p hp
          rcases List.mem_append.mp hp with hp2 | hp2
          · exact bounds_of_channelInv (hinv ch) p hp2
          · rw [List.mem_singleton] at hp2
            subst hp2
            exact hxb
      · exact weak_of_channelInv (hinv c)
    · simp only [handleCanvasClick, ne_eq, reduceCtorEq, not_false_eq_true, if_true]
      exact weakCurveInv_of_curveInv hinv
  · -- point drag
    intro dp s ch cX cY rLeft rTop rWidth rHeight hinv hidx
    rcases dp with _ | i
    · simpa only [handleGlobalMove] using weakCurveInv_of_curveInv hinv
    · have hi : i < (getChannel s ch).length := hidx i rfl
      have hlen2 : 2 ≤ (getChannel s ch).length := (hinv ch).1
      simp only [handleGlobalMove]
      by_cases hcond : i ≠ 0 ∧ i ≠ (getChannel s ch).length - 1
      · rw [if_pos hcond]
        intro c
        rw [getChannel_setChannel]
        split
        · apply weakChannelInv_sortByX
          · rw [List.length_set]
            exact hlen2
          · exact exists_zero_of_set (hinv ch) i _ hcond.1
          · exact exists_max_of_set (hinv ch) i _ hcond.2
          · exact bounds_of_set (hinv ch) i _ (clamp_range _)
        · exact weak_of_channelInv (hinv c)
      · rw [if_neg hcond]
        push_neg at hcond
        have hget : (getChannel s ch).get? i =
            some ((getChannel s ch)[i]) := by
          rw [List.get?_eq_getElem?, List.getElem?_eq_getElem hi]
        rw [hget]
        intro c
        rw [getChannel_setChannel]
        split
        · have hmem := List.getElem_mem hi
          have hqb := bounds_of_channelInv (hinv ch) _ hmem
          by_cases h0 : i = 0
          · apply weakChannelInv_sortByX
            · rw [List.length_set]
              exact hlen2
            · refine ⟨_, set_mem_self _ i _ hi, ?_⟩
              subst h0
              exact getElem_zero_of_channelInv (hinv ch) (by omega)
            · exact exists_max_of_set (hinv ch) i _ (by omega)
            · exact bounds_of_set (hinv ch) i _ hqb
          · have hL : i = (getChannel s ch).length - 1 := by
              rcases Decidable.em (i = 0) with h | h
              · exact absurd h h0
              · exact hcond h
            apply weakChannelInv_sortByX
            · rw [List.length_set]
              exact hlen2
            · exact exists_zero_of_set (hinv ch) i _ h0
            · refine ⟨_, set_mem_self _ i _ hi, ?_⟩
              show ((getChannel s ch)[i]).x = 255
              subst hL
              exact getElem_last_of_channelInv (hinv ch) hi
            · exact bounds_of_set (hinv ch) i _ hqb
        · exact weak_of_channelInv (hinv c)
  · -- remove interior point
    intro index s ch hinv
    simp only [removePoint]
    split
    · exact hinv
    · next hguard =>
      push_neg at hguard
      intro c
      rw [getChannel_setChannel]
      split
      · by_cases hidx : index < (getChannel s ch).length
        · refine ⟨?_, ?_, ?_, ?_⟩
          · rw [List.length_eraseIdx_of_lt hidx]
            have hlen2 := (hinv ch).1
            have hne0 := hguard.1
            have hneL := hguard.2
            omega
          · exact List.Pairwise.sublist (List.eraseIdx_sublist _ index) (hinv ch).2.1
          · rw [head?_eraseIdx _ index hguard.1 hidx]
            exact (hinv ch).2.2.1
          · rw [getLast?_eraseIdx _ index (by have := hguard.2; omega)]
            exact (hinv ch).2.2.2
        · rw [List.eraseIdx_of_length_le (le_of_not_lt hidx)]
          exact hinv ch
      · exact hinv c

/-- Witness for C5 (amended): a concrete in-range click on the default
curve yields the weakened invariant on every channel, and removing the
(virtual) index-1 point of a 2-point curve is guarded into a no-op
that keeps the full invariant. -/
theorem C5_curve_ops_weak_inv_witness :
    weakCurveInv (handleCanvasClick none DEFAULT_CURVES Channel.all 100 100 0 0 255 255) ∧
    curveInv (removePoint 1 DEFAULT_CURVES Channel.all) := by
  constructor
  · exact C5_curve_ops_weak_inv.1 none DEFAULT_CURVES Channel.all 100 100 0 0 255 255
      (by intro c; cases c <;> decide) (by norm_num) (by norm_num) (by norm_num)
  · exact C5_curve_ops_weak_inv.2.2 1 DEFAULT_CURVES Channel.all
      (by intro c; cases c <;> decide)

end ArtCentre
